import Mathlib

/-!
# Verification of `twitch-drops-list` (src/main.rs)

A shallow embedding of the report-building logic of `src/main.rs`:
the Markdown escaper, the "ends in" phrase computation, the stable
case-insensitive game sort, the recent-drops grouping, the all-drops
rendering, and the file-persistence behaviour of `main`.

Timestamps (`chrono::DateTime<Utc>`) are modelled at second granularity
as integers (seconds since the Unix epoch); calendar dates
(`chrono::NaiveDate`) as integer day numbers since 1970-01-01.
The rendered document is modelled as a list of lines: each
`writeln!(writer, s)` appends the lines of `s` followed by a final
line break, so `writeln!(writer, "x\n")` contributes the line `"x"`
and an empty line.
-/

namespace TwitchDrops

/-- `LATEST_WINDOW_DAYS` from `src/main.rs`. -/
def LATEST_WINDOW_DAYS : Int := 7

/-- Seconds in a day; `chrono::Duration::days(n)` is `n * 86400` seconds. -/
def secondsPerDay : Int := 86400

/-- The backslash character (escape prefix pushed by `escape_markdown`). -/
def backslash : Char := Char.ofNat 92

/-- The 19 characters matched by the `match` arm in `escape_markdown`
(`src/main.rs`): backslash, backtick, asterisk, underscore, both braces,
both square brackets, both parentheses, hash, plus, hyphen, period,
exclamation mark, pipe, both angle brackets, tilde (given here by
code point). -/
def markdownSpecials : List Char :=
  [Char.ofNat 92, Char.ofNat 96, Char.ofNat 42, Char.ofNat 95,
   Char.ofNat 123, Char.ofNat 125, Char.ofNat 91, Char.ofNat 93,
   Char.ofNat 40, Char.ofNat 41, Char.ofNat 35, Char.ofNat 43,
   Char.ofNat 45, Char.ofNat 46, Char.ofNat 33, Char.ofNat 124,
   Char.ofNat 60, Char.ofNat 62, Char.ofNat 126]

/-- Whether a character is caught by the escaping `match` arm. -/
def isMarkdownSpecial (c : Char) : Bool := c ∈ markdownSpecials

/-- The loop body of `escape_markdown`: walk the characters in order,
pushing a backslash before each special character (`escaped` is the
string built so far). -/
def escape_chars (escaped : List Char) : List Char → List Char
  | [] => escaped
  | c :: rest =>
      escape_chars (escaped ++ (if isMarkdownSpecial c then [backslash, c] else [c])) rest

/-- `escape_markdown` from `src/main.rs`. -/
def escape_markdown (text : String) : String :=
  String.mk (escape_chars [] text.data)

/-- Two's-complement wrap of an integer into `i16` range, modelling
Rust's `as i16` cast on an `i64`. -/
def wrap16 (x : Int) : Int := (x + 32768) % 65536 - 32768

/-- `chrono::Duration::num_days`: whole days in a span of seconds,
truncated toward zero (Rust `i64` division). -/
def num_days (secs : Int) : Int := Int.tdiv secs secondsPerDay

/-- `format_days_from_now` from `src/main.rs` (argument is an `i16`). -/
def format_days_from_now (days : Int) : String :=
  if days = 0 then "today"
  else if days = 1 then "tomorrow"
  else "in " ++ toString days ++ " days"

/-- `ends_in_days` from `src/main.rs`:
`end.signed_duration_since(now).num_days() as i16`, then branch on
negativity. -/
def ends_in_days (endAt now : Int) : String :=
  let days := wrap16 (num_days (endAt - now))
  if days < 0 then "already ended"
  else "ends " ++ format_days_from_now days

/-- `ApiReward` from `src/main.rs` (`minutes_required` is a `u16`). -/
structure ApiReward where
  name : String
  minutes_required : Nat
deriving DecidableEq

/-- `ApiDrops` from `src/main.rs`; timestamps in epoch seconds. -/
structure ApiDrops where
  name : String
  start_at : Int
  end_at : Int
  rewards : List ApiReward
deriving DecidableEq

/-- `ApiGame` from `src/main.rs`. -/
structure ApiGame where
  game_display_name : String
  drops : List ApiDrops
deriving DecidableEq

/-- Per-character lowercasing used as the sort key
(`g.game_display_name.to_lowercase()`); faithful to Rust's
`str::to_lowercase` on ASCII, where the two agree exactly. -/
def lowercase (s : String) : String := String.map Char.toLower s

/-- The sort key of `games.sort_by_key` in `main`. -/
def sortKey (g : ApiGame) : String := lowercase g.game_display_name

/-- `games.sort_by_key(|g| g.game_display_name.to_lowercase())`:
Rust's `sort_by_key` is a stable sort by the key; any two stable sorts
with respect to the same total preorder agree, so it is modelled with
the stable `List.insertionSort`. -/
def sortGames (games : List ApiGame) : List ApiGame :=
  List.insertionSort (fun a b => sortKey a ≤ sortKey b) games

/-- `drop.start_at.date_naive()` at second granularity: the UTC calendar
day number (days since 1970-01-01, flooring). -/
def dateOf (secs : Int) : Int := Int.fdiv secs secondsPerDay

/-- The cutoff `updates_from = now - Duration::days(LATEST_WINDOW_DAYS)`. -/
def cutoffOf (now : Int) : Int := now - LATEST_WINDOW_DAYS * secondsPerDay

/-- Calendar date (year, month, day) of a day number since 1970-01-01,
in the proleptic Gregorian calendar (models `chrono::NaiveDate`;
standard civil-from-days computation). -/
def civilFromDays (z : Int) : Int × Nat × Nat :=
  let z := z + 719468
  let era := Int.fdiv z 146097
  let doe := (z - era * 146097).toNat
  let yoe := (doe - doe / 1460 + doe / 36524 - doe / 146096) / 365
  let doy := doe - (365 * yoe + yoe / 4 - yoe / 100)
  let mp := (5 * doy + 2) / 153
  let d := doy - (153 * mp + 2) / 5 + 1
  let m := if mp < 10 then mp + 3 else mp - 9
  (era * 400 + yoe + (if m ≤ 2 then 1 else 0), m, d)

/-- Zero-pad the decimal form of a number to a given width. -/
def zeroPad (width : Nat) (n : Nat) : String :=
  let s := toString n
  String.mk (List.replicate (width - s.length) (Char.ofNat 48)) ++ s

/-- `date.format("%Y-%m-%d")` on a day number (models chrono's
formatting: zero-padded year, month and day, sign for negative years). -/
def formatDate (day : Int) : String :=
  let ymd := civilFromDays day
  (if ymd.1 < 0 then "-" ++ zeroPad 4 ymd.1.natAbs else zeroPad 4 ymd.1.toNat) ++
    "-" ++ zeroPad 2 ymd.2.1 ++ "-" ++ zeroPad 2 ymd.2.2

/-- The traversal of `write_latest_drops`'s grouping loop: every
`(date, game name, drop)` triple inserted into the `BTreeMap`, in
insertion order — games in list order, each game's drops in order,
keeping those with `d.start_at > updates_from`. -/
def recentTriples (games : List ApiGame) (cutoff : Int) :
    List (Int × String × ApiDrops) :=
  games.flatMap fun g =>
    (g.drops.filter fun d => decide (cutoff < d.start_at)).map fun d =>
      (dateOf d.start_at, g.game_display_name, d)

/-- The outer `BTreeMap`'s keys as iterated by `.iter().rev()`:
the distinct dates of the selected drops, in descending order. -/
def datesDesc (games : List ApiGame) (cutoff : Int) : List Int :=
  List.insertionSort (fun a b => b ≤ a)
    (((recentTriples games cutoff).map (fun t => t.1)).dedup)

/-- An inner `BTreeMap`'s keys in iteration order: the distinct game
names under one date, ascending in the natural (code-point
lexicographic, equal to Rust's byte-wise UTF-8) string order. -/
def namesAsc (games : List ApiGame) (cutoff : Int) (date : Int) : List String :=
  List.insertionSort (fun a b => a ≤ b)
    ((((recentTriples games cutoff).filter fun t => decide (t.1 = date)).map
      (fun t => t.2.1)).dedup)

/-- One inner `Vec` of the grouping: the drops pushed under
`(date, name)`, in insertion order. -/
def dropsFor (games : List ApiGame) (cutoff : Int) (date : Int)
    (name : String) : List ApiDrops :=
  ((recentTriples games cutoff).filter fun t =>
      decide (t.1 = date) && decide (t.2.1 = name)).map fun t => t.2.2

/-- The two lines a drop bullet contributes in the recent section:
`"- {game}"` is emitted per game, `"  - {drop} ({ends})"` per drop. -/
def recentDropLine (now : Int) (d : ApiDrops) : String :=
  "  - " ++ escape_markdown d.name ++ " (" ++ ends_in_days d.end_at now ++ ")"

/-- The block of lines for one game group in the recent section. -/
def recentGameLines (games : List ApiGame) (cutoff now : Int) (date : Int)
    (name : String) : List String :=
  ("- " ++ escape_markdown name) ::
    (dropsFor games cutoff date name).map (recentDropLine now)

/-- The block of lines for one date in the recent section: the date
line, the game groups, and the blank separator line. -/
def recentDateLines (games : List ApiGame) (cutoff now : Int)
    (date : Int) : List String :=
  formatDate date ::
    ((namesAsc games cutoff date).flatMap (recentGameLines games cutoff now date)
      ++ [""])

/-- `write_latest_drops` from `src/main.rs`, as the list of lines it
writes. -/
def write_latest_drops (games : List ApiGame) (now : Int) : List String :=
  let cutoff := cutoffOf now
  ["## Recent Drops", ""] ++
    (if recentTriples games cutoff = [] then
      ["No drop campaigns started in the last 7 days.", ""]
    else
      (datesDesc games cutoff).flatMap (recentDateLines games cutoff now))

/-- The reward bullet line of `write_all_games`. -/
def rewardLine (r : ApiReward) : String :=
  "  - " ++ escape_markdown r.name ++ " (" ++ toString r.minutes_required ++
    " minutes watched)"

/-- The drop bullet line of `write_all_games`. -/
def dropLine (now : Int) (d : ApiDrops) : String :=
  "- " ++ escape_markdown d.name ++ " (" ++ ends_in_days d.end_at now ++ ")"

/-- The block of lines one game contributes to the all-drops section:
its (escaped) display name, a bullet per drop with a nested bullet per
reward, and the blank separator line. -/
def gameBlock (now : Int) (g : ApiGame) : List String :=
  escape_markdown g.game_display_name ::
    (g.drops.flatMap fun d => dropLine now d :: d.rewards.map rewardLine) ++ [""]

/-- `write_all_games` from `src/main.rs`, as the list of lines it
writes. -/
def write_all_games (games : List ApiGame) (now : Int) : List String :=
  ["## All drops", ""] ++ games.flatMap (gameBlock now)

/-- The document `main` writes into the temporary file, as a list of
lines: the title (`writeln!` of `"# Twitch Drops Campaigns\n"` yields
the title line and a blank line), then either the no-campaigns line or
both sections over the sorted games. -/
def renderDocument (games : List ApiGame) (now : Int) : List String :=
  let sorted := sortGames games
  ["# Twitch Drops Campaigns", ""] ++
    (if sorted.isEmpty then ["No active drops campaigns found."]
    else write_latest_drops sorted now ++ write_all_games sorted now)

/-- A list of lines as file contents: each line followed by a newline. -/
def linesToString (lines : List String) : String :=
  String.join (lines.map fun l => l ++ "\n")

/-- How a run of `main` can fail, matching the `context(...)` sites in
`src/main.rs`. -/
inductive RunError where
  | fetchFailed
  | tempFileFailed
  | writeFailed
  | persistFailed
deriving DecidableEq

/-- Which of `main`'s fallible file-system steps succeed in a run:
creating the temporary file, the `writeln!` calls, and
`temp_file.persist`. -/
structure FsModel where
  tempOk : Bool
  writeOk : Bool
  persistOk : Bool
deriving DecidableEq

/-- `main` from `src/main.rs`, as its effect on the output file
`DROPS.md`: given the fetch result, the file-system behaviour, the
clock and the file's prior contents, return the run's result and the
file's final contents.  The temporary file is written and then renamed
over `DROPS.md` by `persist`; on the empty game list `main` returns
`Ok(())` before reaching `persist`, so the output file keeps its prior
contents. -/
def runMain (fetch : Except String (List ApiGame)) (fs : FsModel) (now : Int)
    (prior : Option String) : Except RunError Unit × Option String :=
  match fetch with
  | .error _ => (.error .fetchFailed, prior)
  | .ok games =>
    if fs.tempOk = false then (.error .tempFileFailed, prior)
    else if fs.writeOk = false then (.error .writeFailed, prior)
    else if (sortGames games).isEmpty then (.ok (), prior)
    else if fs.persistOk then
      (.ok (), some (linesToString (renderDocument games now)))
    else (.error .persistFailed, prior)

/-! ## Helper lemmas -/

/-- Unfolding the escaping loop: the accumulator is a prefix, and the
remaining text contributes one or two characters per input character. -/
theorem escape_chars_eq (t : List Char) : ∀ acc : List Char,
    escape_chars acc t =
      acc ++ t.flatMap (fun c => if isMarkdownSpecial c then [backslash, c] else [c]) := by
  induction t with
  | nil => intro acc; simp [escape_chars]
  | cons c rest ih =>
    intro acc
    by_cases h : isMarkdownSpecial c <;> simp [escape_chars, h, ih]

/-- `wrap16` fixes every integer already in `i16` range. -/
theorem wrap16_eq_self {x : Int} (h1 : -32768 ≤ x) (h2 : x ≤ 32767) :
    wrap16 x = x := by
  have h0 : (0 : Int) ≤ x + 32768 := by omega
  have hlt : x + 32768 < 65536 := by omega
  simp [wrap16, Int.emod_eq_of_lt h0 hlt]

/-- `wrap16` always lands in `i16` range. -/
theorem wrap16_bounds (x : Int) : -32768 ≤ wrap16 x ∧ wrap16 x ≤ 32767 := by
  have h0 : (0 : Int) ≤ (x + 32768) % 65536 := Int.emod_nonneg _ (by norm_num)
  have hlt : (x + 32768) % 65536 < 65536 := Int.emod_lt_of_pos _ (by norm_num)
  constructor <;> [skip; skip] <;> simp [wrap16] <;> omega

/-! ## Claims -/

/-- Claim C1: with an empty fetched game list, the rendered report is
exactly the fixed title line, its trailing blank line, and the single
no-campaigns line; in particular neither the recent-drops heading nor
the all-drops heading occurs anywhere in it. -/
theorem claim_C1 (now : Int) :
    renderDocument [] now =
      ["# Twitch Drops Campaigns", "", "No active drops campaigns found."] ∧
    "## Recent Drops" ∉ renderDocument [] now ∧
    "## All drops" ∉ renderDocument [] now := by
  have h : renderDocument [] now =
      ["# Twitch Drops Campaigns", "", "No active drops campaigns found."] := rfl
  refine ⟨h, ?_, ?_⟩ <;> rw [h] <;> decide

/-- Claim C2 is false on the code: on a successful fetch returning the
empty game list, `main` returns `Ok(())` before `temp_file.persist` is
reached, so `DROPS.md` keeps its stale prior contents instead of being
overwritten with the rendered no-campaigns document. -/
theorem claim_C2_empty_run_does_not_persist :
    runMain (.ok []) ⟨true, true, true⟩ 0 (some "stale") = (.ok (), some "stale") ∧
    (runMain (.ok []) ⟨true, true, true⟩ 0 (some "stale")).2 ≠
      some (linesToString (renderDocument [] 0)) := by
  exact ⟨rfl, by decide⟩

/-- Claim C4: whenever a run of `main` fails — fetch error, temporary
file creation error, write error, or persist error — the output file
keeps its prior contents; no partial document is persisted. -/
theorem claim_C4 (fetch : Except String (List ApiGame)) (fs : FsModel)
    (now : Int) (prior : Option String) (e : RunError)
    (h : (runMain fetch fs now prior).1 = .error e) :
    (runMain fetch fs now prior).2 = prior := by
  cases fetch with
  | error s => rfl
  | ok games =>
    by_cases ht : fs.tempOk = false
    · simp [runMain, ht]
    · by_cases hw : fs.writeOk = false
      · simp [runMain, ht, hw]
      · by_cases he : (sortGames games).isEmpty
        · simp [runMain, ht, hw, he] at h
        · by_cases hp : fs.persistOk
          · simp [runMain, ht, hw, he, hp] at h
          · simp [runMain, ht, hw, he, hp]

/-- A failing fetch against a file holding "prior" leaves it holding
"prior". -/
theorem claim_C4_witness :
    (runMain (.error "connection refused") ⟨true, true, true⟩ 0
      (some "prior")).2 = some "prior" :=
  claim_C4 (.error "connection refused") ⟨true, true, true⟩ 0 (some "prior")
    .fetchFailed rfl

/-- Claim C8: `escape_markdown` maps each character of its input, in
order, to a backslash followed by that character when it is one of the
19 special characters, and to the character itself otherwise; on the
string made of every special character, every occurrence comes out
backslash-prefixed. -/
theorem claim_C8 :
    (∀ s : String, (escape_markdown s).data =
      s.data.flatMap fun c =>
        if isMarkdownSpecial c then [backslash, c] else [c]) ∧
    escape_markdown (String.mk markdownSpecials) =
      String.mk (markdownSpecials.flatMap fun c => [backslash, c]) := by
  constructor
  · intro s
    show (String.mk (escape_chars [] s.data)).data = _
    rw [escape_chars_eq]
    rfl
  · decide

/-- Rejoining the pieces of the "ends in N days" phrase. -/
theorem ends_in_phrase_assoc (x : String) :
    "ends " ++ ("in " ++ x ++ " days") = "ends in " ++ x ++ " days" := by
  have h : ("ends " ++ "in " : String) = "ends in " := by decide
  rw [← String.append_assoc, ← String.append_assoc, h]

/-- Claim C3 as stated is false on the code: the day count is cast to
`i16` (`as i16` in `ends_in_days`), so a campaign ending 32768 whole
days in the future — whole-day difference 32768 ≥ 2, for which the
claim requires "ends in 32768 days" — wraps to -32768 and is rendered
"already ended". -/
theorem claim_C3_counterexample :
    2 ≤ num_days ((2831155200 : Int) - 0) ∧
    ends_in_days 2831155200 0 = "already ended" ∧
    ends_in_days 2831155200 0 ≠
      "ends in " ++ toString (num_days ((2831155200 : Int) - 0)) ++ " days" := by
  refine ⟨by decide, by decide, by decide⟩

/-- Claim C3, amended: whenever the whole-day difference (the span in
seconds from `now` to `endAt`, divided by 86400 truncating toward
zero) lies in the `i16` range `[-32768, 32767]`, `ends_in_days`
returns "already ended" when it is negative, "ends today" at zero,
"ends tomorrow" at one, and "ends in {days} days" at two or more; and
repeated calls with the same inputs return the same string. -/
theorem claim_C3 (endAt now : Int)
    (h1 : -32768 ≤ num_days (endAt - now))
    (h2 : num_days (endAt - now) ≤ 32767) :
    (num_days (endAt - now) < 0 → ends_in_days endAt now = "already ended") ∧
    (num_days (endAt - now) = 0 → ends_in_days endAt now = "ends today") ∧
    (num_days (endAt - now) = 1 → ends_in_days endAt now = "ends tomorrow") ∧
    (2 ≤ num_days (endAt - now) →
      ends_in_days endAt now =
        "ends in " ++ toString (num_days (endAt - now)) ++ " days") ∧
    ends_in_days endAt now = ends_in_days endAt now := by
  have hw : wrap16 (num_days (endAt - now)) = num_days (endAt - now) :=
    wrap16_eq_self h1 h2
  refine ⟨fun h => ?_, fun h => ?_, fun h => ?_, fun h => ?_, rfl⟩
  · simp [ends_in_days, hw, h]
  · simp only [ends_in_days]
    rw [hw, h]
    decide
  · simp only [ends_in_days]
    rw [hw, h]
    decide
  · have hne0 : num_days (endAt - now) ≠ 0 := by omega
    have hne1 : num_days (endAt - now) ≠ 1 := by omega
    have hnneg : ¬ num_days (endAt - now) < 0 := by omega
    simp [ends_in_days, format_days_from_now, hw, hne0, hne1, hnneg,
      ends_in_phrase_assoc]

/-- A drop ending three whole days from now renders "ends in 3 days";
the three-day difference is inside the `i16` range. -/
theorem claim_C3_witness : ends_in_days (3 * 86400) 0 = "ends in 3 days" := by
  have h := (claim_C3 (3 * 86400) 0 (by decide) (by decide)).2.2.2.1 (by decide)
  rw [h]
  decide

/-- Claim C9: with no precondition at all on `endAt` and `now`, the
string `ends_in_days` returns is one of "already ended", "ends today",
"ends tomorrow", or "ends in {d} days" for a day count `d` with
`2 ≤ d ≤ 32767` — so the "ends in" form never carries a count of 0, 1,
or a negative number. -/
theorem claim_C9 (endAt now : Int) :
    ends_in_days endAt now = "already ended" ∨
    ends_in_days endAt now = "ends today" ∨
    ends_in_days endAt now = "ends tomorrow" ∨
    ∃ d : Int, 2 ≤ d ∧ d ≤ 32767 ∧
      ends_in_days endAt now = "ends in " ++ toString d ++ " days" := by
  obtain ⟨hlo, hhi⟩ := wrap16_bounds (num_days (endAt - now))
  set days := wrap16 (num_days (endAt - now)) with hdays
  by_cases hneg : days < 0
  · left
    simp [ends_in_days, ← hdays, hneg]
  · by_cases h0 : days = 0
    · right; left
      simp [ends_in_days, format_days_from_now, ← hdays, hneg, h0]
    · by_cases hone : days = 1
      · right; right; left
        simp [ends_in_days, format_days_from_now, ← hdays, hneg, hone]
      · right; right; right
        refine ⟨days, by omega, hhi, ?_⟩
        simp [ends_in_days, format_days_from_now, ← hdays, hneg, h0, hone,
          ends_in_phrase_assoc]

/-- Membership in a recent-drops group, characterised: a drop value is
pushed under `(date, name)` exactly when some game with that display
name owns it, it started strictly after the cutoff, and its start
falls on that calendar date. -/
theorem mem_dropsFor {games : List ApiGame} {cutoff date : Int}
    {name : String} {d : ApiDrops} :
    d ∈ dropsFor games cutoff date name ↔
      ∃ g ∈ games, g.game_display_name = name ∧ d ∈ g.drops ∧
        cutoff < d.start_at ∧ dateOf d.start_at = date := by
  simp only [dropsFor, recentTriples, List.mem_map, List.mem_filter,
    List.mem_flatMap, Bool.and_eq_true, decide_eq_true_eq]
  constructor
  · rintro ⟨t, ⟨⟨g, hg, d', ⟨hdmem, hdcut⟩, rfl⟩, hdate, hname⟩, rfl⟩
    exact ⟨g, hg, hname, hdmem, hdcut, hdate⟩
  · rintro ⟨g, hg, hname, hd, hcut, hdate⟩
    refine ⟨(dateOf d.start_at, g.game_display_name, d),
      ⟨⟨g, hg, d, ?_, rfl⟩, hdate, hname⟩, rfl⟩
    exact ⟨hd, hcut⟩

/-- Claim C6: a drop whose `startAt` is at or before `now - 7 days`
never appears in any group of the recent-drops section, and a drop
whose `startAt` is strictly after the cutoff always appears there — in
the group of its start date and its game's display name. -/
theorem claim_C6 (games : List ApiGame) (now : Int) (g : ApiGame)
    (hg : g ∈ games) (d : ApiDrops) (hd : d ∈ g.drops) :
    (d.start_at ≤ cutoffOf now →
      ∀ date name, d ∉ dropsFor games (cutoffOf now) date name) ∧
    (cutoffOf now < d.start_at →
      d ∈ dropsFor games (cutoffOf now) (dateOf d.start_at)
        g.game_display_name) := by
  constructor
  · intro h date name hmem
    obtain ⟨g', _, _, _, hcut, _⟩ := mem_dropsFor.mp hmem
    omega
  · intro h
    exact mem_dropsFor.mpr ⟨g, hg, rfl, hd, h, rfl⟩

/-- At `now` ten days in, a drop started nine days in (after the
three-day cutoff) is grouped under its date and game, while a drop
started at the epoch is in no group. -/
theorem claim_C6_witness :
    (⟨"New", 9 * 86400, 20 * 86400, []⟩ : ApiDrops) ∈
      dropsFor [⟨"G", [⟨"New", 9 * 86400, 20 * 86400, []⟩,
        ⟨"Old", 0, 20 * 86400, []⟩]⟩] (cutoffOf (10 * 86400)) (dateOf (9 * 86400)) "G" ∧
    (⟨"Old", 0, 20 * 86400, []⟩ : ApiDrops) ∉
      dropsFor [⟨"G", [⟨"New", 9 * 86400, 20 * 86400, []⟩,
        ⟨"Old", 0, 20 * 86400, []⟩]⟩] (cutoffOf (10 * 86400)) 0 "G" := by
  constructor
  · exact (claim_C6
      [⟨"G", [⟨"New", 9 * 86400, 20 * 86400, []⟩, ⟨"Old", 0, 20 * 86400, []⟩]⟩]
      (10 * 86400)
      ⟨"G", [⟨"New", 9 * 86400, 20 * 86400, []⟩, ⟨"Old", 0, 20 * 86400, []⟩]⟩
      (by decide) ⟨"New", 9 * 86400, 20 * 86400, []⟩ (by decide)).2 (by decide)
  · exact (claim_C6 _ (10 * 86400)
      ⟨"G", [⟨"New", 9 * 86400, 20 * 86400, []⟩, ⟨"Old", 0, 20 * 86400, []⟩]⟩
      (by decide) ⟨"Old", 0, 20 * 86400, []⟩ (by decide)).1 (by decide) 0 "G"

/-- Claim C10: a game with no drops still contributes its block to the
all-drops section: the escaped display name line followed immediately
by the blank separator line, with no bullets in between; the two-line
block occurs contiguously inside the rendered section. -/
theorem claim_C10 (games : List ApiGame) (now : Int) (g : ApiGame)
    (hg : g ∈ games) (hempty : g.drops = []) :
    gameBlock now g = [escape_markdown g.game_display_name, ""] ∧
    List.IsInfix [escape_markdown g.game_display_name, ""]
      (write_all_games games now) := by
  have hblock : gameBlock now g = [escape_markdown g.game_display_name, ""] := by
    simp [gameBlock, hempty]
  refine ⟨hblock, ?_⟩
  obtain ⟨s, t, rfl⟩ := List.append_of_mem hg
  refine ⟨["## All drops", ""] ++ s.flatMap (gameBlock now),
    t.flatMap (gameBlock now), ?_⟩
  simp [write_all_games, List.flatMap_append, hblock]

/-- A game "Foo" with no drops renders as its name line and a blank
line inside the all-drops section. -/
theorem claim_C10_witness :
    List.IsInfix [escape_markdown "Foo", ""]
      (write_all_games [⟨"Foo", []⟩] 0) :=
  (claim_C10 [⟨"Foo", []⟩] 0 ⟨"Foo", []⟩ (by decide) rfl).2

/-- Claim C5: the all-drops section renders one block per game of the
sorted list, whose order is ascending in the case-folded display name;
the sorted list is a permutation of the input (so each heading keeps
its original casing), and games with equal case-folded names keep
their relative input order (stability, stated as: restricting the
sorted list to any one key value gives exactly the input restricted to
that key value). -/
theorem claim_C5 (games : List ApiGame) (now : Int) :
    write_all_games (sortGames games) now =
      ["## All drops", ""] ++ (sortGames games).flatMap (gameBlock now) ∧
    (sortGames games).Pairwise (fun a b => sortKey a ≤ sortKey b) ∧
    (sortGames games).Perm games ∧
    ∀ k : String,
      (sortGames games).filter (fun g => decide (sortKey g = k)) =
        games.filter (fun g => decide (sortKey g = k)) := by
  haveI : IsTrans ApiGame (fun a b => sortKey a ≤ sortKey b) :=
    ⟨fun _ _ _ h1 h2 => le_trans h1 h2⟩
  haveI : IsTotal ApiGame (fun a b => sortKey a ≤ sortKey b) :=
    ⟨fun _ _ => le_total _ _⟩
  refine ⟨rfl, List.sorted_insertionSort _ _, List.perm_insertionSort _ _,
    fun k => ?_⟩
  · set p : ApiGame → Bool := fun g => decide (sortKey g = k) with hp
    have hperm : ((sortGames games).filter p).Perm (games.filter p) :=
      (List.perm_insertionSort _ games).filter p
    have hpair : (games.filter p).Pairwise (fun a b => sortKey a ≤ sortKey b) := by
      apply List.pairwise_of_forall_mem_list
      intro a ha b hb
      have hka : sortKey a = k := by
        simpa [hp] using (List.mem_filter.mp ha).2
      have hkb : sortKey b = k := by
        simpa [hp] using (List.mem_filter.mp hb).2
      rw [hka, hkb]
    have hsub : (games.filter p).Sublist (sortGames games) :=
      List.sublist_insertionSort hpair (List.filter_sublist games)
    have hsame : (games.filter p).filter p = games.filter p :=
      List.filter_eq_self.mpr fun a ha => (List.mem_filter.mp ha).2
    have hsub2 : (games.filter p).Sublist ((sortGames games).filter p) := by
      have h := List.Sublist.filter p hsub
      rwa [hsame] at h
    exact (hsub2.eq_of_length hperm.length_eq.symm).symm

/-- The per-game step of the recent-drops grouping keeps only a filter
of that game's drops, so each group is a sublist of the concatenated
drop lists. -/
theorem dropsFor_sublist (cutoff date : Int) (name : String) :
    ∀ games : List ApiGame,
      (dropsFor games cutoff date name).Sublist
        (games.flatMap fun g => g.drops)
  | [] => by simp [dropsFor, recentTriples]
  | g :: rest => by
    have ih := dropsFor_sublist cutoff date name rest
    have key : ∀ (q : Int × String × ApiDrops → Bool),
        ((((g.drops.filter fun d => decide (cutoff < d.start_at)).map
          (fun d => (dateOf d.start_at, g.game_display_name, d))).filter q).map
          (fun t => t.2.2)).Sublist g.drops := by
      intro q
      rw [List.filter_map, List.map_map]
      have h2 : ((fun (t : Int × String × ApiDrops) => t.2.2) ∘
          (fun d => (dateOf d.start_at, g.game_display_name, d))) =
            (id : ApiDrops → ApiDrops) := rfl
      rw [h2, List.map_id]
      exact (List.filter_sublist _).trans (List.filter_sublist _)
    show ((((g.drops.filter fun d => decide (cutoff < d.start_at)).map
        (fun d => (dateOf d.start_at, g.game_display_name, d)) ++
        recentTriples rest cutoff).filter _).map _).Sublist
      (g.drops ++ rest.flatMap fun g => g.drops)
    rw [List.filter_append, List.map_append]
    exact List.Sublist.append (key _) ih

/-- Claim C7: in the recent-drops section the date keys (whose
formatted forms are the rendered date lines) are strictly descending —
hence no date appears twice; within a date the game-group keys are
strictly ascending in the exact (non-folded) display-name string
order; and within a group the drops are a sublist of the source games'
concatenated drop lists, i.e. they keep their original relative
order. -/
theorem claim_C7 (games : List ApiGame) (now : Int) :
    (datesDesc games (cutoffOf now)).Pairwise (fun a b : Int => b < a) ∧
    (∀ date : Int,
      (namesAsc games (cutoffOf now) date).Pairwise
        (fun a b : String => a < b)) ∧
    (∀ (date : Int) (name : String),
      (dropsFor games (cutoffOf now) date name).Sublist
        (games.flatMap fun g => g.drops)) := by
  refine ⟨?_, fun date => ?_, fun date name => dropsFor_sublist _ _ _ games⟩
  · haveI : IsTrans Int (fun a b : Int => b ≤ a) :=
      ⟨fun _ _ _ h1 h2 => le_trans h2 h1⟩
    haveI : IsTotal Int (fun a b : Int => b ≤ a) := ⟨fun a b => le_total b a⟩
    have hsorted : (datesDesc games (cutoffOf now)).Pairwise
        (fun a b : Int => b ≤ a) :=
      List.sorted_insertionSort _ _
    have hnodup : (datesDesc games (cutoffOf now)).Nodup :=
      (List.perm_insertionSort _ _).symm.nodup (List.nodup_dedup _)
    exact (hsorted.and hnodup).imp fun h => lt_of_le_of_ne h.1 (Ne.symm h.2)
  · haveI : IsTrans String (fun a b : String => a ≤ b) :=
      ⟨fun _ _ _ h1 h2 => le_trans h1 h2⟩
    haveI : IsTotal String (fun a b : String => a ≤ b) :=
      ⟨fun a b => le_total a b⟩
    have hsorted : (namesAsc games (cutoffOf now) date).Pairwise
        (fun a b : String => a ≤ b) :=
      List.sorted_insertionSort _ _
    have hnodup : (namesAsc games (cutoffOf now) date).Nodup :=
      (List.perm_insertionSort _ _).symm.nodup (List.nodup_dedup _)
    exact (hsorted.and hnodup).imp fun h => lt_of_le_of_ne h.1 h.2

end TwitchDrops
